import Mathlib

/-!
Verification development for the scalar fixed-point rescaling core in
`ruy/apply_multiplier.cc`.

The source defines two rounding routines:
- `TFMultiplyByQuantizedMultiplier` (the baseline single-rounding-shift
  algorithm, guarded by fatal `RUY_CHECK`s on the shift range), and
- `MultiplyByQuantizedMultiplier`, the entry point that dispatches either to
  the baseline routine or to a "round-to-even" branch, according to a
  process-wide mode memoized from the `TF_QUANTIZED_ROUND` environment value.

The embedding below models 64-bit signed arithmetic with `Int` (overflow is
impossible on the paths exercised, and guards mark undefined behavior
explicitly), arithmetic right shift with `Int.fdiv` by a power of two,
`static_cast<int32_t>` narrowing with two's-complement wrap, and the
`int64 -> double -> int32` round trip with an exact integer model of IEEE
double rounding. A call outcome distinguishes a returned value, a fatal
`RUY_CHECK` failure, and C++ undefined behavior.
-/

namespace RuyApplyMultiplier

/-- Outcome of one call: a returned 32-bit value, process termination by a
fatal `RUY_CHECK`, or C++ undefined behavior (oversized shift counts or
signed overflow). -/
inductive Outcome where
  | ok (v : Int)
  | fatal
  | undef
  deriving DecidableEq, Repr

/-- Two's-complement narrowing `static_cast<std::int32_t>` of a wider signed
value. -/
def toInt32 (v : Int) : Int := (v + 2 ^ 31) % 2 ^ 32 - 2 ^ 31

/-- The value lies in the `std::int32_t` range. -/
def isInt32 (v : Int) : Prop := -(2 ^ 31) ≤ v ∧ v < 2 ^ 31

instance (v : Int) : Decidable (isInt32 v) := by
  unfold isInt32; infer_instance

/-- C conversion `unsigned(n)`: reduction modulo 2^32, as a natural number. -/
def unsigned32 (n : Int) : Nat := (n % 2 ^ 32).toNat

/-- Source function `TFMultiplyByQuantizedMultiplier(x, quantized_multiplier,
shift)`: `RUY_CHECK_GE(shift, -31)` and `RUY_CHECK_LE(shift, 7)` are fatal;
then `total_shift = 31 - shift`, `round = (int64)1 << (total_shift - 1)`,
`result = (x_64 * quantized_multiplier_64 + round) >> total_shift` in 64-bit
signed arithmetic (the arithmetic right shift is floor division), and the
result is narrowed by `static_cast<std::int32_t>`. The `RUY_DCHECK` range
checks are debug-only and absent from release semantics. -/
def TFMultiplyByQuantizedMultiplier (x quantized_multiplier shift : Int) :
    Outcome :=
  if shift < -31 ∨ 7 < shift then Outcome.fatal
  else
    let total_shift : Nat := (31 - shift).toNat
    let round : Int := 2 ^ (total_shift - 1)
    let result : Int := (x * quantized_multiplier + round).fdiv (2 ^ total_shift)
    Outcome.ok (toInt32 result)

/-- Source macro `LL_ROUND(X, shift)`, the unbiased round-to-even shift:
`(X + ((X >> shift) & 1) + ((1LL << (shift-1)) - 1)) >> shift` on 64-bit
signed values; `>>` is the arithmetic shift (floor division) and `& 1`
extracts the low bit (value modulo 2). -/
def LL_ROUND (X : Int) (s : Nat) : Int :=
  (X + (X.fdiv (2 ^ s)) % 2 + (2 ^ (s - 1) - 1)).fdiv (2 ^ s)

/-- Conversion of a 64-bit signed integer to IEEE-754 double precision
(round to nearest, ties to even), modeled exactly on integers: values of
magnitude below 2^53 convert exactly; larger magnitudes are rounded to the
nearest multiple of `2^(log2 n - 52)`, ties to the even quotient. -/
def doubleOfInt (v : Int) : Int :=
  if v.natAbs < 2 ^ 53 then v
  else
    let n := v.natAbs
    let e := n.log2 - 52
    let q := n / 2 ^ e
    let r := n % 2 ^ e
    let q' := if 2 * r > 2 ^ e ∨ (2 * r = 2 ^ e ∧ q % 2 = 1) then q + 1 else q
    (if 0 ≤ v then 1 else -1) * ((q' : Int) * 2 ^ e)

/-- The `R_ev_round` branch of the source entry point:
`acc = (long long)x; acc *= unsigned(shift); x = double(LL_ROUND(acc,
unsigned(shift)))`, the double then being narrowed to `int32`. The branch
performs no `RUY_CHECK`. It is undefined behavior when the unsigned shift
count lies outside [1, 63] (shift counts of 64 or more, and the
`1LL << (unsigned(shift) - 1)` underflow at `shift = 0`), when the 64-bit
product overflows, or when the resulting double truncates outside the
`int32` range. -/
def evRound (x shift : Int) : Outcome :=
  let u : Nat := unsigned32 shift
  if 1 ≤ u ∧ u ≤ 63 then
    let acc : Int := x * (u : Int)
    if acc.natAbs < 2 ^ 63 ∧
        (acc + (acc.fdiv (2 ^ u)) % 2 + (2 ^ (u - 1) - 1)).natAbs < 2 ^ 63 then
      let d : Int := doubleOfInt (LL_ROUND acc u)
      if -(2 ^ 31) ≤ d ∧ d ≤ 2 ^ 31 - 1 then Outcome.ok d else Outcome.undef
    else Outcome.undef
  else Outcome.undef

/-- Rounding mode, as in the source `enum Rmode`. -/
inductive Rmode where
  | R_double_round
  | R_ev_round
  deriving DecidableEq, Repr

/-- The source `tell()` lambda resolving `getenv("TF_QUANTIZED_ROUND")`:
a null result (variable absent) selects `R_double_round` silently; the value
`"EV"` selects `R_ev_round`; any other present value (the empty string
included) selects `R_double_round` and prints the unrecognized-value
diagnostic. The boolean records whether the diagnostic is printed. -/
def resolveMode (env : Option String) : Rmode × Bool :=
  match env with
  | none => (Rmode.R_double_round, false)
  | some s =>
    if s = "EV" then (Rmode.R_ev_round, false)
    else (Rmode.R_double_round, true)

/-- Source entry point `MultiplyByQuantizedMultiplier(x, mul, shift)` with
the memoized mode `QR` made an explicit argument: `R_double_round` calls
`TFMultiplyByQuantizedMultiplier(x, mul, shift)`; `R_ev_round` runs the
round-to-even branch, which never reads `mul`. -/
def MultiplyByQuantizedMultiplier (QR : Rmode) (x mul shift : Int) : Outcome :=
  match QR with
  | Rmode.R_double_round => TFMultiplyByQuantizedMultiplier x mul shift
  | Rmode.R_ev_round => evRound x shift

/-- One call's effect on the `static const Rmode QR` local: on the first call
the initializer `tell()` reads the environment and the result is memoized;
later calls return the memoized mode without reading the environment. -/
def applyStep (st : Option Rmode) (env : Option String) : Rmode × Option Rmode :=
  match st with
  | some m => (m, some m)
  | none => ((resolveMode env).1, some (resolveMode env).1)

/-- A sequence of calls, each seeing the environment value current at its own
call time: returns the mode used by each call and the final memoized state. -/
def callSeq (st : Option Rmode) : List (Option String) → List Rmode × Option Rmode
  | [] => ([], st)
  | e :: es =>
    let step := applyStep st e
    let rest := callSeq step.2 es
    (step.1 :: rest.1, rest.2)

/-! Helper lemmas about the arithmetic of the two rounding shifts. -/

lemma two_pow_pos (t : Nat) : (0 : Int) < 2 ^ t := by positivity

lemma two_pow_pred_lt {t : Nat} (h : 1 ≤ t) : (2 : Int) ^ (t - 1) < 2 ^ t :=
  pow_lt_pow_right₀ (by norm_num) (by omega)

lemma fdiv_pow_eq_zero {a : Int} (t : Nat) (h0 : 0 ≤ a) (h : a < 2 ^ t) :
    a.fdiv (2 ^ t) = 0 := by
  rw [Int.fdiv_eq_ediv _ (le_of_lt (two_pow_pos t))]
  exact Int.ediv_eq_zero_of_lt h0 h

lemma evRound_ne_fatal (x shift : Int) : evRound x shift ≠ Outcome.fatal := by
  simp only [evRound]
  split
  · split
    · split <;> simp
    · simp
  · simp

/-- The `if` guarding the shift range in the baseline routine, as a
reusable rewriting step. -/
lemma TFMul_of_range {shift : Int} (x mul : Int)
    (h1 : -31 ≤ shift) (h2 : shift ≤ 7) :
    TFMultiplyByQuantizedMultiplier x mul shift =
      Outcome.ok (toInt32
        ((x * mul + 2 ^ ((31 - shift).toNat - 1)).fdiv
          (2 ^ (31 - shift).toNat))) := by
  unfold TFMultiplyByQuantizedMultiplier
  rw [if_neg (by omega)]

/-- C1: for every 32-bit `x`, every multiplier, and every shift in
`[-31, 7]`, `TFMultiplyByQuantizedMultiplier` returns the 32-bit narrowing
of `(int64)x * (int64)multiplier + 2^(total_shift - 1)` arithmetically
shifted right by `total_shift`, where `total_shift = 31 - shift`; with
int32 operands no intermediate 64-bit computation overflows, so exact
integer arithmetic coincides with the 64-bit signed arithmetic. -/
theorem C1_baseline_formula (x mul shift : Int)
    (hx : isInt32 x) (hm : isInt32 mul) (h1 : -31 ≤ shift) (h2 : shift ≤ 7) :
    TFMultiplyByQuantizedMultiplier x mul shift =
      Outcome.ok (toInt32
        ((x * mul + 2 ^ ((31 - shift).toNat - 1)).fdiv
          (2 ^ (31 - shift).toNat))) :=
  TFMul_of_range x mul h1 h2

/-- C1 witness: the formula instantiated at `x = 3`, `mul = 2^30`,
`shift = 0`. -/
theorem C1_baseline_formula_witness :
    TFMultiplyByQuantizedMultiplier 3 1073741824 0 =
      Outcome.ok (toInt32
        (((3 : Int) * 1073741824 + 2 ^ ((31 - (0 : Int)).toNat - 1)).fdiv
          (2 ^ (31 - (0 : Int)).toNat))) :=
  C1_baseline_formula 3 1073741824 0 (by decide) (by decide) (by decide)
    (by decide)

/-- C4: in `R_ev_round` mode the entry point never reads the multiplier
operand, so the result is the same for any two multipliers. -/
theorem C4_even_ignores_multiplier (x m1 m2 shift : Int) :
    MultiplyByQuantizedMultiplier Rmode.R_ev_round x m1 shift =
      MultiplyByQuantizedMultiplier Rmode.R_ev_round x m2 shift := rfl

/-- C5 counterexample: a present-but-empty `TF_QUANTIZED_ROUND` value
selects baseline mode but DOES print the unrecognized-value diagnostic
(`getenv` returns a non-null empty string, which fails the `strcmp` against
`"EV"`), refuting the claim that an empty value produces no diagnostic. -/
theorem C5_counterexample :
    (resolveMode (some "")).1 = Rmode.R_double_round ∧
      (resolveMode (some "")).2 = true := by decide

/-- C5 amended: `"EV"` selects `R_ev_round`; any other PRESENT value, the
empty string included, selects `R_double_round` and prints the one-time
diagnostic; only an ABSENT variable selects `R_double_round` silently. -/
theorem C5_mode_resolution :
    resolveMode none = (Rmode.R_double_round, false) ∧
    resolveMode (some "EV") = (Rmode.R_ev_round, false) ∧
    ∀ s : String, s ≠ "EV" →
      resolveMode (some s) = (Rmode.R_double_round, true) := by
  refine ⟨rfl, by decide, ?_⟩
  intro s hs
  simp [resolveMode, hs]

/-- C5 witness: the amended resolution evaluated at the unrecognized value
`"XYZ"`. -/
theorem C5_mode_resolution_witness :
    resolveMode (some "XYZ") = (Rmode.R_double_round, true) :=
  C5_mode_resolution.2.2 "XYZ" (by decide)

/-- C3 counterexample: in `R_ev_round` mode a call with `shift = 8`
(outside `[-31, 7]`) does not hit any fatal check: the round-to-even branch
performs no `RUY_CHECK` and returns a value. -/
theorem C3_counterexample :
    MultiplyByQuantizedMultiplier Rmode.R_ev_round 0 0 8 = Outcome.ok 0 := by
  decide

/-- C3 amended: only the baseline mode carries the fatal shift-range check:
in `R_double_round` mode the call is fatal exactly when `shift` lies outside
`[-31, 7]` (so `-32` and `8` are fatal, `-31` and `7` return values), while
in `R_ev_round` mode no call is ever fatal. -/
theorem C3_fatal_range (x mul shift : Int) :
    (MultiplyByQuantizedMultiplier Rmode.R_double_round x mul shift =
        Outcome.fatal ↔ shift < -31 ∨ 7 < shift) ∧
    (-31 ≤ shift → shift ≤ 7 →
      ∃ v, MultiplyByQuantizedMultiplier Rmode.R_double_round x mul shift =
        Outcome.ok v) ∧
    MultiplyByQuantizedMultiplier Rmode.R_ev_round x mul shift ≠
      Outcome.fatal := by
  refine ⟨?_, ?_, evRound_ne_fatal x shift⟩
  · show TFMultiplyByQuantizedMultiplier x mul shift = Outcome.fatal ↔ _
    unfold TFMultiplyByQuantizedMultiplier
    by_cases h : shift < -31 ∨ 7 < shift
    · simp [h]
    · simp [h]
  · intro h1 h2
    exact ⟨_, TFMul_of_range x mul h1 h2⟩

/-- C3 witness: `shift = 8` is fatal in baseline mode, `shift = 7`
returns a value in baseline mode, and `shift = -32` is not fatal in
round-to-even mode. -/
theorem C3_fatal_range_witness :
    MultiplyByQuantizedMultiplier Rmode.R_double_round 0 0 8 =
      Outcome.fatal ∧
    (∃ v, MultiplyByQuantizedMultiplier Rmode.R_double_round 0 0 7 =
      Outcome.ok v) ∧
    MultiplyByQuantizedMultiplier Rmode.R_ev_round 0 0 (-32) ≠
      Outcome.fatal :=
  ⟨(C3_fatal_range 0 0 8).1.mpr (Or.inr (by decide)),
   (C3_fatal_range 0 0 7).2.1 (by decide) (by decide),
   (C3_fatal_range 0 0 (-32)).2.2⟩

/-- C8: multiplying by a zero quantized multiplier yields zero for every
in-range shift and every 32-bit accumulator: the half-ULP bias
`2^(total_shift - 1)` is entirely shifted away. -/
theorem C8_zero_multiplier (x shift : Int) (hx : isInt32 x)
    (h1 : -31 ≤ shift) (h2 : shift ≤ 7) :
    TFMultiplyByQuantizedMultiplier x 0 shift = Outcome.ok 0 := by
  rw [TFMul_of_range x 0 h1 h2, mul_zero, zero_add,
    fdiv_pow_eq_zero _ (by positivity) (two_pow_pred_lt (by omega))]
  decide

/-- C8 witness: the zero-multiplier identity at `x = 5`, `shift = -31`. -/
theorem C8_zero_multiplier_witness :
    TFMultiplyByQuantizedMultiplier 5 0 (-31) = Outcome.ok 0 :=
  C8_zero_multiplier 5 (-31) (by decide) (by decide) (by decide)

/-- C9: the two concrete baseline values from the spec:
`1000 * 2^30 / 2^31 = 500` exactly, and `3 * 2^30 / 2^31 = 1.5` rounds up
to `2` under the half-up bias. -/
theorem C9_concrete_values :
    TFMultiplyByQuantizedMultiplier 1000 1073741824 0 = Outcome.ok 500 ∧
    TFMultiplyByQuantizedMultiplier 3 1073741824 0 = Outcome.ok 2 := by
  exact ⟨by decide, by decide⟩

lemma callSeq_some (m : Rmode) (es : List (Option String)) :
    callSeq (some m) es = (List.replicate es.length m, some m) := by
  induction es with
  | nil => rfl
  | cons e es ih => simp [callSeq, applyStep, ih, List.replicate]

/-- C7: the mode is resolved from the environment once and memoized:
in any sequence of calls, every call returns the mode resolved from the
environment value seen by the FIRST call, regardless of how the environment
changes afterwards, and the memoized state never changes again. -/
theorem C7_memoized_mode (env : Option String)
    (rest : List (Option String)) :
    (callSeq none (env :: rest)).1 =
      List.replicate (rest.length + 1) (resolveMode env).1 ∧
    (callSeq none (env :: rest)).2 = some (resolveMode env).1 := by
  simp [callSeq, applyStep, callSeq_some, List.replicate]

/-! Arithmetic of the round-to-even path. -/

lemma fdiv_pow (a : Int) (s : Nat) : a.fdiv (2 ^ s) = a / 2 ^ s :=
  Int.fdiv_eq_ediv _ (two_pow_pos s).le

lemma nat_le_two_pow_pred {s : Nat} (h : 1 ≤ s) : (s : Int) ≤ 2 ^ (s - 1) := by
  have h3 : (s - 1) + 1 ≤ 2 ^ (s - 1) := Nat.succ_le_of_lt (Nat.lt_two_pow _)
  have h4 : s - 1 + 1 = s := Nat.succ_pred_eq_of_pos h
  rw [h4] at h3
  exact_mod_cast h3

lemma two_pow_eq_two_mul_pred {s : Nat} (h : 1 ≤ s) :
    (2 : Int) ^ s = 2 * 2 ^ (s - 1) := by
  conv_lhs => rw [show s = s - 1 + 1 by omega]
  rw [pow_succ]
  ring

lemma doubleOfInt_small {v : Int} (h : v.natAbs < 2 ^ 53) :
    doubleOfInt v = v := by
  unfold doubleOfInt
  rw [if_pos h]

/-- The round-to-even shift of an int32 accumulator scaled by a shift in
`[1, 63]` stays within `[-2^30, 2^30]`. -/
lemma LL_ROUND_bounds {x shift : Int} (hx : isInt32 x)
    (h1 : 1 ≤ shift) (h2 : shift ≤ 63) :
    -(2 ^ 30) ≤ LL_ROUND (x * shift) shift.toNat ∧
      LL_ROUND (x * shift) shift.toNat ≤ 2 ^ 30 := by
  obtain ⟨hxl, hxr⟩ := hx
  set s : Nat := shift.toNat with hsdef
  have hsh : (s : Int) = shift := Int.toNat_of_nonneg (by omega)
  have hs1 : 1 ≤ s := by omega
  have hsQ : (s : Int) ≤ 2 ^ (s - 1) := nat_le_two_pow_pred hs1
  have hQ1 : (1 : Int) ≤ 2 ^ (s - 1) := one_le_pow₀ (by norm_num)
  have hPQ : (2 : Int) ^ s = 2 * 2 ^ (s - 1) := two_pow_eq_two_mul_pred hs1
  have hP0 : (0 : Int) < 2 ^ s := two_pow_pos s
  have hXu : x * shift ≤ 2 ^ 31 * shift :=
    mul_le_mul_of_nonneg_right (by linarith) (by linarith)
  have hXl : -(2 ^ 31) * shift ≤ x * shift :=
    mul_le_mul_of_nonneg_right (by linarith) (by linarith)
  simp only [LL_ROUND, fdiv_pow]
  set B : Int := x * shift / 2 ^ s % 2 with hBdef
  have hB0 : 0 ≤ B := Int.emod_nonneg _ (by norm_num)
  have hB1 : B < 2 := Int.emod_lt_of_pos _ (by norm_num)
  constructor
  · rw [Int.le_ediv_iff_mul_le hP0]
    linarith
  · rw [← Int.lt_add_one_iff, Int.ediv_lt_iff_lt_mul hP0, add_mul, one_mul]
    linarith

/-- In `[1, 63]`, the unsigned reinterpretation of the shift is the shift
itself, every guard of the round-to-even branch holds, the double
round-trip is exact, and the branch returns `LL_ROUND(x * shift, shift)`. -/
lemma evRound_eq {x shift : Int} (hx : isInt32 x)
    (h1 : 1 ≤ shift) (h2 : shift ≤ 63) :
    evRound x shift = Outcome.ok (LL_ROUND (x * shift) shift.toNat) := by
  obtain ⟨hxl, hxr⟩ := id hx
  have h0 : (0 : Int) ≤ shift := by linarith
  have hu : unsigned32 shift = shift.toNat := by
    unfold unsigned32
    rw [Int.emod_eq_of_lt h0 (by omega)]
  have hsh : ((shift.toNat : Nat) : Int) = shift := Int.toNat_of_nonneg h0
  have hXu : x * shift ≤ 2 ^ 31 * shift :=
    mul_le_mul_of_nonneg_right (by linarith) (by linarith)
  have hXl : -(2 ^ 31) * shift ≤ x * shift :=
    mul_le_mul_of_nonneg_right (by linarith) (by linarith)
  have habs : ∀ a : Int, -(2 ^ 38) - 2 ^ 62 ≤ a → a ≤ 2 ^ 38 + 2 ^ 62 →
      a.natAbs < 2 ^ 63 :=
    fun a ha hb => by omega
  have hB0 : 0 ≤ (x * shift).fdiv (2 ^ shift.toNat) % 2 :=
    Int.emod_nonneg _ (by norm_num)
  have hB1 : (x * shift).fdiv (2 ^ shift.toNat) % 2 < 2 :=
    Int.emod_lt_of_pos _ (by norm_num)
  have hQ62 : (2 : Int) ^ (shift.toNat - 1) ≤ 2 ^ 62 :=
    pow_le_pow_right₀ (by norm_num) (by omega)
  have hQ1 : (1 : Int) ≤ 2 ^ (shift.toNat - 1) := one_le_pow₀ (by norm_num)
  have hb := LL_ROUND_bounds ⟨hxl, hxr⟩ h1 h2
  simp only [evRound, hu, hsh]
  rw [if_pos (show 1 ≤ shift.toNat ∧ shift.toNat ≤ 63 by omega)]
  rw [if_pos (show (x * shift).natAbs < 2 ^ 63 ∧
      (x * shift + (x * shift).fdiv (2 ^ shift.toNat) % 2 +
        (2 ^ (shift.toNat - 1) - 1)).natAbs < 2 ^ 63 from
    ⟨habs _ (by linarith) (by linarith), habs _ (by linarith) (by linarith)⟩)]
  obtain ⟨hr1, hr2⟩ := hb
  set r : Int := LL_ROUND (x * shift) shift.toNat with hrdef
  have hsmall : r.natAbs < 2 ^ 53 := by omega
  rw [doubleOfInt_small hsmall,
    if_pos (show -(2 ^ 31) ≤ r ∧ r ≤ 2 ^ 31 - 1 by omega)]

/-- Exact tie under the half-up bias: when the low `t` bits of `p` are
exactly the half-ULP `2^(t-1)`, the biased floor shift lands one above the
floor, i.e. the tie resolves upward. -/
lemma half_up_tie {p : Int} {t : Nat} (ht : 1 ≤ t)
    (htie : p % 2 ^ t = 2 ^ (t - 1)) :
    (p + 2 ^ (t - 1)).fdiv (2 ^ t) = p.fdiv (2 ^ t) + 1 := by
  have hP0 : (0 : Int) < 2 ^ t := two_pow_pos t
  have hPQ : (2 : Int) ^ t = 2 * 2 ^ (t - 1) := two_pow_eq_two_mul_pred ht
  simp only [fdiv_pow]
  set q := p / 2 ^ t with hq
  have h := Int.ediv_add_emod p (2 ^ t)
  rw [htie] at h
  have key : p + 2 ^ (t - 1) = 2 ^ t * (q + 1) := by
    rw [mul_add, mul_one]
    linarith
  rw [key, Int.mul_ediv_cancel_left _ (ne_of_gt hP0)]

lemma neg_one_ediv_two_pow (s : Nat) : (-1 : Int) / 2 ^ s = -1 := by
  have hP0 : (0 : Int) < 2 ^ s := two_pow_pos s
  exact ((Int.ediv_emod_unique (a := -1) (b := 2 ^ s) (r := 2 ^ s - 1)
      (q := -1) hP0).mpr ⟨by ring, by linarith, by linarith⟩).1

/-- Exact tie under the round-to-even shift: when the low `s` bits of `X`
are exactly `2^(s-1)`, `LL_ROUND` resolves to the floor when the floor is
even and to the floor plus one when the floor is odd. -/
lemma LL_ROUND_tie {X : Int} {s : Nat} (hs : 1 ≤ s)
    (htie : X % 2 ^ s = 2 ^ (s - 1)) :
    LL_ROUND X s =
      if (X.fdiv (2 ^ s)) % 2 = 0 then X.fdiv (2 ^ s)
      else X.fdiv (2 ^ s) + 1 := by
  have hP0 : (0 : Int) < 2 ^ s := two_pow_pos s
  have hPQ : (2 : Int) ^ s = 2 * 2 ^ (s - 1) := two_pow_eq_two_mul_pred hs
  simp only [LL_ROUND, fdiv_pow]
  set q := X / 2 ^ s with hq
  have h := Int.ediv_add_emod X (2 ^ s)
  rw [htie] at h
  by_cases hpar : q % 2 = 0
  · rw [if_pos hpar]
    have key : X + q % 2 + (2 ^ (s - 1) - 1) = -1 + 2 ^ s * (q + 1) := by
      rw [hpar, mul_add, mul_one]
      linarith
    rw [key, Int.add_mul_ediv_left _ _ (ne_of_gt hP0),
      neg_one_ediv_two_pow s]
    ring
  · rw [if_neg hpar]
    have hq1 : q % 2 = 1 := (Int.emod_two_eq q).resolve_left hpar
    have key : X + q % 2 + (2 ^ (s - 1) - 1) = 2 ^ s * (q + 1) := by
      rw [hq1, mul_add, mul_one]
      linarith
    rw [key, Int.mul_ediv_cancel_left _ (ne_of_gt hP0)]

/-- C2: in `R_ev_round` mode, for every int32 `x` and every shift on which
the branch's operations are defined (unsigned shift count in `[1, 63]`),
the entry point forms `acc = (int64)x * unsigned(shift)`, applies the
round-to-even shift `(acc + ((acc >> shift) & 1) + ((1 << (shift-1)) - 1))
>> shift`, passes the rounded value through the double round-trip, and
returns it narrowed to int32 (the narrowing is exact here since the result
fits int32). -/
theorem C2_even_round_formula (x mul shift : Int) (hx : isInt32 x)
    (h1 : 1 ≤ shift) (h2 : shift ≤ 63) :
    MultiplyByQuantizedMultiplier Rmode.R_ev_round x mul shift =
      Outcome.ok (doubleOfInt
        ((x * shift + (x * shift).fdiv (2 ^ shift.toNat) % 2 +
            (2 ^ (shift.toNat - 1) - 1)).fdiv (2 ^ shift.toNat))) := by
  show evRound x shift = _
  rw [evRound_eq hx h1 h2]
  have hb := LL_ROUND_bounds hx h1 h2
  simp only [LL_ROUND] at hb
  rw [doubleOfInt_small (by omega : ((x * shift +
      (x * shift).fdiv (2 ^ shift.toNat) % 2 +
      (2 ^ (shift.toNat - 1) - 1)).fdiv (2 ^ shift.toNat)).natAbs < 2 ^ 53)]
  rfl

/-- C2 witness: the round-to-even formula instantiated at `x = 3`,
`mul = 0`, `shift = 1`. -/
theorem C2_even_round_formula_witness :
    MultiplyByQuantizedMultiplier Rmode.R_ev_round 3 0 1 =
      Outcome.ok (doubleOfInt
        (((3 : Int) * 1 + ((3 : Int) * 1).fdiv (2 ^ (1 : Int).toNat) % 2 +
            (2 ^ ((1 : Int).toNat - 1) - 1)).fdiv (2 ^ (1 : Int).toNat))) :=
  C2_even_round_formula 3 0 1 (by decide) (by decide) (by decide)

/-- C6: on exact half-ULP ties the baseline rounder resolves upward (one
above the floor), the round-to-even branch resolves to the even neighbor
of the floor, and the paired tie inputs `(1, 2^30, 0)` (baseline,
representing 0.5) and `(1, 1)` (round-to-even, representing 0.5) produce
the differing outcomes 1 and 0. -/
theorem C6_tie_breaking :
    (∀ x mul shift : Int, -31 ≤ shift → shift ≤ 7 →
      (x * mul) % 2 ^ (31 - shift).toNat = 2 ^ ((31 - shift).toNat - 1) →
      TFMultiplyByQuantizedMultiplier x mul shift =
        Outcome.ok (toInt32
          ((x * mul).fdiv (2 ^ (31 - shift).toNat) + 1))) ∧
    (∀ x shift : Int, isInt32 x → 1 ≤ shift → shift ≤ 7 →
      (x * shift) % 2 ^ shift.toNat = 2 ^ (shift.toNat - 1) →
      evRound x shift =
        Outcome.ok (if ((x * shift).fdiv (2 ^ shift.toNat)) % 2 = 0
          then (x * shift).fdiv (2 ^ shift.toNat)
          else (x * shift).fdiv (2 ^ shift.toNat) + 1)) ∧
    TFMultiplyByQuantizedMultiplier 1 1073741824 0 = Outcome.ok 1 ∧
    evRound 1 1 = Outcome.ok 0 := by
  refine ⟨?_, ?_, by decide, by decide⟩
  · intro x mul shift h1 h2 htie
    rw [TFMul_of_range x mul h1 h2, half_up_tie (by omega) htie]
  · intro x shift hx h1 h2 htie
    rw [evRound_eq hx h1 (by linarith)]
    congr 1
    exact LL_ROUND_tie (by omega) htie

/-- C6 witness: the two universal tie characterizations instantiated at the
paired 0.5-tie inputs `(1, 2^30, 0)` and `(1, 1)`. -/
theorem C6_tie_breaking_witness :
    TFMultiplyByQuantizedMultiplier 1 1073741824 0 =
      Outcome.ok (toInt32
        (((1 : Int) * 1073741824).fdiv (2 ^ (31 - (0 : Int)).toNat) + 1)) ∧
    evRound 1 1 =
      Outcome.ok (if (((1 : Int) * 1).fdiv (2 ^ (1 : Int).toNat)) % 2 = 0
        then ((1 : Int) * 1).fdiv (2 ^ (1 : Int).toNat)
        else ((1 : Int) * 1).fdiv (2 ^ (1 : Int).toNat) + 1) :=
  ⟨C6_tie_breaking.1 1 1073741824 0 (by decide) (by decide) (by decide),
   C6_tie_breaking.2.1 1 1 (by decide) (by decide) (by decide) (by decide)⟩

/-- C10 (baseline part helper is shared): a zero accumulator rounds to zero
in baseline mode for every shift in `[-31, 7]`, and in round-to-even mode
for every shift in `[1, 7]`. -/
theorem C10_zero_accumulator (mul shift : Int) :
    (-31 ≤ shift → shift ≤ 7 →
      MultiplyByQuantizedMultiplier Rmode.R_double_round 0 mul shift =
        Outcome.ok 0) ∧
    (1 ≤ shift → shift ≤ 7 →
      MultiplyByQuantizedMultiplier Rmode.R_ev_round 0 mul shift =
        Outcome.ok 0) := by
  constructor
  · intro h1 h2
    show TFMultiplyByQuantizedMultiplier 0 mul shift = Outcome.ok 0
    rw [TFMul_of_range 0 mul h1 h2, zero_mul, zero_add,
      fdiv_pow_eq_zero _ (by positivity) (two_pow_pred_lt (by omega))]
    decide
  · intro h1 h2
    show evRound 0 shift = Outcome.ok 0
    interval_cases shift <;> decide

/-- C10 witness: zero accumulator at `mul = 5`, baseline `shift = -31` and
round-to-even `shift = 7`. -/
theorem C10_zero_accumulator_witness :
    MultiplyByQuantizedMultiplier Rmode.R_double_round 0 5 (-31) =
      Outcome.ok 0 ∧
    MultiplyByQuantizedMultiplier Rmode.R_ev_round 0 5 7 = Outcome.ok 0 :=
  ⟨(C10_zero_accumulator 5 (-31)).1 (by decide) (by decide),
   (C10_zero_accumulator 5 7).2 (by decide) (by decide)⟩

end RuyApplyMultiplier
